import Mathlib

/-
Shallow embedding of src/axelrod/strategies/axelrod_second.py
(strategies from Axelrod's second tournament: Champion, Eatherley,
Tester, Gladstein, MoreGrofman), together with theorems settling the
spec claims about them.

Modelling conventions:
  * `Action` embeds `axelrod.action.Action` (C / D) with its `flip`.
  * Histories are chronological `List Action` (index 0 = first round);
    Python's `history[-1]` is `List.getLast?`.
  * Python float arithmetic on round thresholds is modelled over `ℚ`,
    with `float('inf')` (an unbounded match length) as a separate
    constructor of `ELength`; `x < inf` is true, `inf / c` is `inf`,
    matching IEEE semantics for finite `x` and positive `c`.
  * Each strategy call is a function `SysState → SysState × Option Action`:
    the returned state carries every mutable location the Python call can
    touch (the strategy's own flag and the random stream); `none` models a
    raised exception (ZeroDivisionError / IndexError); the random source is
    an explicit stream `rng : List ℚ` of uniform draws in [0,1), consumed
    exactly where the Python code calls `random.random()`.
-/

namespace AxelrodSecond

/-- Embeds `axelrod.action.Action`: the two moves Cooperate and Defect. -/
inductive Action where
  | C : Action
  | D : Action
deriving DecidableEq

/-- Embeds `Action.flip`: swap C and D. -/
def Action.flip : Action → Action
  | Action.C => Action.D
  | Action.D => Action.C

/-- Embeds the value of `self.match_attributes['length']`: either a finite
expected length or `float('inf')` for an unbounded match. -/
inductive ELength where
  | fin : ℚ → ELength
  | infinite : ELength
deriving DecidableEq

/-- Division of an expected length by a positive rational constant,
as Python float division (`inf / c == inf`). -/
def ELength.divQ : ELength → ℚ → ELength
  | ELength.fin q, c => ELength.fin (q / c)
  | ELength.infinite, _ => ELength.infinite

/-- Multiplication of an expected length by a positive rational constant,
as Python float multiplication (`inf * c == inf` for `c > 0`). -/
def ELength.mulQ : ELength → ℚ → ELength
  | ELength.fin q, c => ELength.fin (q * c)
  | ELength.infinite, _ => ELength.infinite

/-- Embeds the Python comparison `x < expected_length_expression` where the
right side may be `float('inf')`: every finite `x` is `< inf`. -/
def ltE (x : ℚ) : ELength → Bool
  | ELength.fin q => decide (x < q)
  | ELength.infinite => true

/-- The full mutable state visible to one strategy call: its own history and
cooperation count, the read-only opponent view (history and running
defection/cooperation counts, maintained by the engine), the match length
attribute, the strategy's private boolean flag (`is_TFT` for Tester,
`patsy` for Gladstein; unused by the others), and the stream of uniform
random draws. -/
structure SysState where
  ownHist : List Action
  oppHist : List Action
  oppDefections : ℕ
  oppCooperations : ℕ
  ownCooperations : ℕ
  expLen : ELength
  flag : Bool
  rng : List ℚ
deriving DecidableEq

/-- Replace the random stream of a state (used to compare runs of the same
call under different random sources). -/
def setRng (s : SysState) (ρ : List ℚ) : SysState := { s with rng := ρ }

/-- The opponent-owned part of the state: history and both counts. -/
def oppView (s : SysState) : List Action × ℕ × ℕ :=
  (s.oppHist, s.oppDefections, s.oppCooperations)

/-- Everything in the state other than the strategy's private flag and the
random stream: the opponent view together with the own history, the own
cooperation count and the match length attribute. A call whose output
state agrees with its input on this view can have changed nothing but its
flag (and consumed random draws). -/
def nonFlagView (s : SysState) :
    (List Action × ℕ × ℕ) × List Action × ℕ × ELength :=
  (oppView s, s.ownHist, s.ownCooperations, s.expLen)

/-- Embeds Python list indexing `xs[i]` for `i : Int`: a negative index
counts from the end; out of range raises IndexError (`none`). -/
def pyGet (xs : List Action) (i : Int) : Option Action :=
  let j : Int := if i < 0 then (xs.length : Int) + i else i
  if 0 ≤ j then xs.get? j.toNat else none

/-- Embeds Python `range(a, b)`: the integers `a, a+1, ..., b-1`. -/
def pyRange (a b : Int) : List Int :=
  (List.range (b - a).toNat).map (fun t => a + t)

/-- Modelled from the spec: the random-choice collaborator of §6,
`random_choice(p)` from `axelrod.random_` (module not in src). Its
deterministic interface per §4.2/§6: with `r` the uniform draw in [0,1),
return Cooperate if `r < p`, else Defect. -/
def random_choice (p r : ℚ) : Action :=
  if r < p then Action.C else Action.D

/-- Embeds `Champion.strategy`. Reads the current round (own history
length) and `match_attributes['length']`; thresholds `expected_length / 20`
and `expected_length * 5 / 40`; final phase divides
`opponent.defections / len(opponent.history)` (ZeroDivisionError when
the opponent history is empty → `none`), and draws one random number
only when the opponent's previous move was D. -/
def championCall (s : SysState) : SysState × Option Action :=
  let currentRound : ℚ := (s.ownHist.length : ℚ)
  if s.ownHist.length = 0 then (s, some Action.C)
  else if ltE currentRound (s.expLen.divQ 20) then (s, some Action.C)
  else if ltE currentRound ((s.expLen.mulQ 5).divQ 40) then (s, s.oppHist.getLast?)
  else if s.oppHist.length = 0 then (s, none)
  else
    let defectionProp : ℚ := (s.oppDefections : ℚ) / (s.oppHist.length : ℚ)
    match s.oppHist.getLast? with
    | none => (s, none)
    | some a =>
      if a = Action.D then
        let r : ℚ := s.rng.headD 0
        let s1 : SysState := { s with rng := s.rng.tail }
        if defectionProp ≥ max (0.4 : ℚ) r then (s1, some Action.D)
        else (s1, some Action.C)
      else (s, some Action.C)

/-- Embeds `Eatherley.strategy`: Cooperate on empty opponent history,
reciprocate a C; after a D defect with probability equal to the opponent's
defection proportion, via `random_choice(1 - defection_prop)` consuming
one draw. -/
def eatherleyCall (s : SysState) : SysState × Option Action :=
  if s.oppHist.length = 0 then (s, some Action.C)
  else
    match s.oppHist.getLast? with
    | none => (s, none)
    | some a =>
      if a = Action.C then (s, some Action.C)
      else
        let defectionProp : ℚ := (s.oppDefections : ℚ) / (s.oppHist.length : ℚ)
        let r : ℚ := s.rng.headD 0
        ({ s with rng := s.rng.tail },
          some (random_choice (1 - defectionProp) r))

/-- Embeds `Tester.strategy` with `flag` as the `is_TFT` field: defect on
the first move; once `is_TFT`, play the opponent's previous move; on the
opponent's first defection set `is_TFT` and apologise with C; otherwise
cooperate on own moves 2 and 3, then alternate by flipping the own
previous move. -/
def testerCall (s : SysState) : SysState × Option Action :=
  if s.oppHist.length = 0 then (s, some Action.D)
  else if s.flag then
    (s, some (if s.oppHist.getLast? = some Action.D then Action.D else Action.C))
  else if s.oppHist.getLast? = some Action.D then
    ({ s with flag := true }, some Action.C)
  else if s.ownHist.length = 1 ∨ s.ownHist.length = 2 then (s, some Action.C)
  else
    match s.ownHist.getLast? with
    | none => (s, none)
    | some a => (s, some a.flip)

/-- Embeds `Gladstein.strategy` with `flag` as the `patsy` field: defect on
the first move; while `patsy`, apologise (clearing `patsy`) after an
opponent D, and otherwise defect exactly when own
`cooperations / len(history) > 0.5`; after the apology play the opponent's
previous move. `none` is the IndexError on `opponent.history[-1]` with an
empty opponent history. -/
def gladsteinCall (s : SysState) : SysState × Option Action :=
  if s.ownHist.length = 0 then (s, some Action.D)
  else if s.flag then
    match s.oppHist.getLast? with
    | none => (s, none)
    | some a =>
      if a = Action.D then ({ s with flag := false }, some Action.C)
      else
        let cooperationRatio : ℚ := (s.ownCooperations : ℚ) / (s.ownHist.length : ℚ)
        if cooperationRatio > (0.5 : ℚ) then (s, some Action.D)
        else (s, some Action.C)
  else
    match s.oppHist.getLast? with
    | none => (s, none)
    | some a => (s, some a)

/-- Embeds the counting loop of `MoreGrofman.k86r`: with `acc` the running
`iprev7`, walk the Python loop indices `i`, reading
`ioppnt[python_index]` for `python_index = i - 1` and adding 1 for each D;
an IndexError is `none`. -/
def iprev7Loop (ioppnt : List Action) : List Int → ℕ → Option ℕ
  | [], acc => some acc
  | i :: rest, acc =>
    match pyGet ioppnt (i - 1) with
    | none => none
    | some a => iprev7Loop ioppnt rest (acc + (if a = Action.D then 1 else 0))

/-- The recent-defection count computed by the code of `MoreGrofman.k86r`
for move number `moven`: with `j = moven - 7` and `k = moven - 1`, the loop
`for i in range(j-1, k+1)` accumulating `int(ioppnt[i-1] == D)`. -/
def k86rCount (moven : ℕ) (ioppnt : List Action) : Option ℕ :=
  iprev7Loop ioppnt
    (pyRange (((moven : Int) - 7) - 1) (((moven : Int) - 1) + 1)) 0

/-- Embeds `MoreGrofman.k86r`: cooperate through move 2, mirror `jpick`
through move 7, then decide from the own previous move and the loop count;
the Python function falls off the end (returns None) if no decision-table
row matches, modelled as `none` (the rows are exhaustive). -/
def k86r (ownHist ioppnt : List Action) (jpick : Action) (moven : ℕ) :
    Option Action :=
  if ¬ moven > 2 then some Action.C
  else if ¬ moven > 7 then some jpick
  else
    match ownHist.getLast? with
    | none => none
    | some myold =>
      match k86rCount moven ioppnt with
      | none => none
      | some iprev7 =>
        if myold = Action.C ∧ iprev7 ≤ 2 then some Action.C
        else if myold = Action.C ∧ iprev7 > 2 then some Action.D
        else if myold = Action.D ∧ iprev7 ≤ 1 then some Action.C
        else if myold = Action.D ∧ iprev7 > 1 then some Action.D
        else none

/-- Embeds `MoreGrofman.strategy`: `jpick` is the opponent's previous move
(C when the opponent has no history), `moven = len(self.history) + 1`, and
the decision is delegated to `k86r`. The call mutates nothing. -/
def moreGrofmanCall (s : SysState) : SysState × Option Action :=
  let jpick : Action :=
    if s.oppHist.length ≥ 1 then (s.oppHist.getLast?).getD Action.C
    else Action.C
  let moven : ℕ := s.ownHist.length + 1
  (s, k86r s.ownHist s.oppHist jpick moven)

/-- Stated from the claim C2 wording (for comparison with the code's
`k86rCount`): the number of opponent D moves at 0-indexed history positions
`moven - 8` through `moven - 2` inclusive — exactly the most recent 7
completed opponent rounds. -/
def claimRecentDefections (moven : ℕ) (ioppnt : List Action) : ℕ :=
  ((ioppnt.drop (moven - 8)).take 7).count Action.D

/-- A state of Tester with the given own history, opponent history and
`is_TFT` flag; the engine-maintained counts are derived from the
histories, the match length is the tournament default 200, and no random
draws are provided (Tester makes none). -/
def mkTesterState (own opp : List Action) (f : Bool) : SysState :=
  { ownHist := own, oppHist := opp,
    oppDefections := opp.count Action.D,
    oppCooperations := opp.count Action.C,
    ownCooperations := own.count Action.C,
    expLen := ELength.fin 200, flag := f, rng := [] }

/-- Tester's own history and `is_TFT` flag after `n` completed rounds
against an opponent who always cooperates (so the opponent history before
round `n` is `n` copies of C). -/
def testerCoopSim : ℕ → List Action × Bool
  | 0 => ([], false)
  | n + 1 =>
    let p := testerCoopSim n
    let s := mkTesterState p.1 (List.replicate n Action.C) p.2
    (p.1 ++ [((testerCall s).2).getD Action.C], ((testerCall s).1).flag)

/-- The move Tester makes in round `n` against an always-cooperating
opponent. -/
def testerMoveVsCoop (n : ℕ) : Option Action :=
  (testerCall (mkTesterState (testerCoopSim n).1
    (List.replicate n Action.C) (testerCoopSim n).2)).2

/-- The own-history pattern Tester produces against an always-cooperating
opponent after `3 + 2k` rounds: the opening `[D, C, C]` followed by `k`
copies of the alternating block `[D, C]`. -/
def patt (k : ℕ) : List Action :=
  [Action.D, Action.C, Action.C] ++
    (List.replicate k [Action.D, Action.C]).flatten

/-- Claim C1, counterexample: with an unbounded match length, at round
index 1 (greater than 0) the first threshold comparison
`current_round < expected_length / 20` evaluates to true, not false, and
Champion returns Cooperate from the unconditional-cooperate phase — not a
final-phase decision (there, with the opponent's single move a D and the
draw 0, it would defect). -/
theorem champion_unbounded_counterexample :
    ltE 1 (ELength.infinite.divQ 20) = true ∧
    (championCall ⟨[Action.C], [Action.D], 1, 0, 1,
        ELength.infinite, false, [0]⟩).2 = some Action.C :=
  ⟨rfl, rfl⟩

/-- Claim C1 as amended: with an unbounded match length attribute, the
round-count threshold comparisons evaluate to true without raising for
every round, so Champion stays in the unconditional-cooperate phase and
returns Cooperate in every round; the mirror and final probabilistic
phases are never reached. -/
theorem champion_unbounded_always_cooperates (s : SysState)
    (h : s.expLen = ELength.infinite) :
    (championCall s).2 = some Action.C := by
  unfold championCall
  by_cases h0 : s.ownHist.length = 0
  · simp [h0]
  · simp [h0, h, ltE, ELength.divQ]

/-- Witness for the amended claim C1 at a concrete state. -/
theorem champion_unbounded_witness :
    (championCall ⟨[Action.C, Action.C], [Action.D, Action.D], 2, 0, 2,
        ELength.infinite, false, [0]⟩).2 = some Action.C :=
  champion_unbounded_always_cooperates _ rfl

/-- Claim C2, failing inputs: the loop of `k86r` iterates
`range(j-1, k+1)`, i.e. 0-indexed opponent positions `moven-9 .. moven-2`
— 8 rounds, not the 7 rounds `moven-8 .. moven-2` of the claim (and of the
code's own comment and docstring). At `moven = 9` with opponent history
`[D, C, C, C, C, C, C, C]` the code counts 1 where the 7-round window
holds 0 defections; at `moven = 8` index `-1` wraps to the last element,
double-counting it (2 versus 1); and at `moven = 9` with opponent history
`[D, D, D, C, C, C, C, C]` and own previous move C the code returns D
where the claimed 7-round window (2 defections) gives C. -/
theorem k86r_window_off_by_one :
    k86rCount 9 [Action.D, Action.C, Action.C, Action.C, Action.C,
        Action.C, Action.C, Action.C] = some 1 ∧
    claimRecentDefections 9 [Action.D, Action.C, Action.C, Action.C,
        Action.C, Action.C, Action.C, Action.C] = 0 ∧
    k86rCount 8 [Action.C, Action.C, Action.C, Action.C, Action.C,
        Action.C, Action.D] = some 2 ∧
    claimRecentDefections 8 [Action.C, Action.C, Action.C, Action.C,
        Action.C, Action.C, Action.D] = 1 ∧
    k86r [Action.C, Action.C, Action.C, Action.C, Action.C, Action.C,
        Action.C, Action.C]
      [Action.D, Action.D, Action.D, Action.C, Action.C, Action.C,
        Action.C, Action.C] Action.C 9 = some Action.D ∧
    claimRecentDefections 9 [Action.D, Action.D, Action.D, Action.C,
        Action.C, Action.C, Action.C, Action.C] = 2 := by
  decide

/-- Claim C3: in a round where Tester has not yet apologised and the
opponent's previous move is D, Tester returns C and sets its `is_TFT`
flag; the flag is never cleared by any later call; and while the flag is
set Tester returns exactly the opponent's previous move. -/
theorem tester_apology_invariant (s : SysState) :
    (s.flag = false → s.oppHist.getLast? = some Action.D →
      (testerCall s).2 = some Action.C ∧ (testerCall s).1.flag = true) ∧
    (s.flag = true → (testerCall s).1.flag = true) ∧
    (∀ a : Action, s.flag = true → s.oppHist.getLast? = some a →
      (testerCall s).2 = some a) := by
  refine ⟨?_, ?_, ?_⟩
  · intro hf hd
    have hne : ¬ s.oppHist.length = 0 := by
      intro h0
      rw [List.length_eq_zero] at h0
      rw [h0] at hd
      simp at hd
    constructor <;> simp [testerCall, hne, hf, hd]
  · intro hf
    by_cases h0 : s.oppHist.length = 0
    · simp [testerCall, h0, hf]
    · simp [testerCall, h0, hf]
  · intro a hf hd
    have hne : ¬ s.oppHist.length = 0 := by
      intro h0
      rw [List.length_eq_zero] at h0
      rw [h0] at hd
      simp at hd
    cases a <;> simp [testerCall, hne, hf, hd]

/-- Witness for claim C3 at a concrete state: the opponent defected on its
second move; the not-yet-apologised call returns C and sets the flag. -/
theorem tester_apology_witness :
    (testerCall ⟨[Action.D], [Action.D], 1, 0, 0,
        ELength.fin 200, false, []⟩).2 = some Action.C ∧
    (testerCall ⟨[Action.D], [Action.D], 1, 0, 0,
        ELength.fin 200, false, []⟩).1.flag = true :=
  (tester_apology_invariant _).1 rfl rfl

/-- Claim C4: in Champion's final phase (round index at least 1 and at
least `expected_length * 5 / 40`, under the engine invariant that the two
histories have equal length), with
`defection_prop = opponent.defections / len(opponent.history)` and `r` the
uniform draw, the call returns Defect iff the opponent's previous move was
Defect and `defection_prop ≥ max(0.4, r)`, and Cooperate in every other
case. -/
theorem champion_final_phase (s : SysState)
    (hlen : s.oppHist.length = s.ownHist.length)
    (h1 : 1 ≤ s.ownHist.length)
    (h2 : ltE (s.ownHist.length : ℚ) ((s.expLen.mulQ 5).divQ 40) = false) :
    (championCall s).2 =
      some (if s.oppHist.getLast? = some Action.D ∧
              (s.oppDefections : ℚ) / (s.oppHist.length : ℚ) ≥
                max (0.4 : ℚ) (s.rng.headD 0)
            then Action.D else Action.C) := by
  have h0 : ¬ s.ownHist.length = 0 := by omega
  have hop : ¬ s.oppHist.length = 0 := by omega
  have h20 : ltE (s.ownHist.length : ℚ) (s.expLen.divQ 20) = false := by
    cases e : s.expLen with
    | infinite =>
      rw [e] at h2
      simp [ltE, ELength.mulQ, ELength.divQ] at h2
    | fin q =>
      rw [e] at h2
      simp only [ltE, ELength.mulQ, ELength.divQ,
        decide_eq_false_iff_not, not_lt] at h2 ⊢
      have hn : (1 : ℚ) ≤ (s.ownHist.length : ℚ) := by exact_mod_cast h1
      rcases le_or_lt q 0 with hq | hq
      · have hq20 : q / 20 ≤ 0 := by
          apply div_nonpos_of_nonpos_of_nonneg hq
          norm_num
        linarith
      · have hq20 : q / 20 ≤ q * 5 / 40 := by
          rw [div_le_div_iff₀ (by norm_num) (by norm_num)]
          nlinarith
        linarith
  have hsome : s.oppHist.getLast?.isSome :=
    List.getLast?_isSome.mpr (by
      intro hnil
      rw [hnil] at hop
      simp at hop)
  obtain ⟨a, ha⟩ := Option.isSome_iff_exists.mp hsome
  cases a with
  | C => simp [championCall, h0, h20, h2, hop, ha]
  | D =>
    simp [championCall, h0, h20, h2, hop, ha]
    split_ifs <;> rfl

/-- Witness for claim C4 at a concrete state: expected length 20, round 3
(past `20 * 5 / 40 = 2.5`), opponent history all defections, draw 0: the
final phase fires and the comparison picks Defect. -/
theorem champion_final_phase_witness :
    (championCall ⟨[Action.C, Action.C, Action.C],
        [Action.D, Action.D, Action.D], 3, 0, 3,
        ELength.fin 20, false, [0]⟩).2 = some Action.D := by
  have h := champion_final_phase
    ⟨[Action.C, Action.C, Action.C], [Action.D, Action.D, Action.D], 3, 0, 3,
      ELength.fin 20, false, [0]⟩
    rfl (by decide) (by with_unfolding_all decide)
  rw [h]
  with_unfolding_all decide

/-- Claim C5: for a non-empty opponent history Eatherley reciprocates a
previous C deterministically; after a previous D it returns
`random_choice(1 - defection_prop)`; and against an all-D opponent
history (defection count equal to its length) the draw comparison cannot
pick C, so it defects deterministically. -/
theorem eatherley_reactive (s : SysState) :
    (s.oppHist.getLast? = some Action.C →
      (eatherleyCall s).2 = some Action.C) ∧
    (s.oppHist.getLast? = some Action.D →
      (eatherleyCall s).2 = some (random_choice
        (1 - (s.oppDefections : ℚ) / (s.oppHist.length : ℚ))
        (s.rng.headD 0))) ∧
    (∀ n : ℕ, 1 ≤ n → s.oppHist = List.replicate n Action.D →
      s.oppDefections = n → 0 ≤ s.rng.headD 0 →
      (eatherleyCall s).2 = some Action.D) := by
  have keyne : ∀ a : Action, s.oppHist.getLast? = some a →
      ¬ s.oppHist.length = 0 := by
    intro a h h0
    rw [List.length_eq_zero] at h0
    rw [h0] at h
    simp at h
  refine ⟨?_, ?_, ?_⟩
  · intro h
    simp [eatherleyCall, keyne _ h, h]
  · intro h
    simp [eatherleyCall, keyne _ h, h]
  · intro n hn hrep hdef hr
    have hlast : s.oppHist.getLast? = some Action.D := by
      rw [hrep]
      obtain ⟨m, rfl⟩ : ∃ m, n = m + 1 := ⟨n - 1, by omega⟩
      rw [List.replicate_succ']
      exact List.getLast?_concat _
    have hlen : s.oppHist.length = n := by rw [hrep]; simp
    have h2 : (eatherleyCall s).2 = some (random_choice
        (1 - (s.oppDefections : ℚ) / (s.oppHist.length : ℚ))
        (s.rng.headD 0)) := by
      simp [eatherleyCall, keyne _ hlast, hlast]
    rw [h2, hdef, hlen]
    have hq : ((n : ℚ)) ≠ 0 := Nat.cast_ne_zero.mpr (by omega)
    rw [div_self hq]
    simp only [random_choice, sub_self]
    rw [if_neg (not_lt.mpr hr)]

/-- Witness for claim C5 at a concrete state: opponent history of ten
defections, draw 0 — the call defects deterministically. -/
theorem eatherley_reactive_witness :
    (eatherleyCall ⟨List.replicate 10 Action.C, List.replicate 10 Action.D,
        10, 0, 10, ELength.fin 200, false, [0]⟩).2 = some Action.D :=
  (eatherley_reactive _).2.2 10 (by decide) rfl rfl (by simp)

/-- Claim C6: with a non-empty own history and the `patsy` flag still set,
Gladstein apologises (returns C and clears `patsy`) when the opponent's
previous move was D, and otherwise returns Defect exactly when its own
`cooperations / len(history)` exceeds 0.5, leaving the flag set. -/
theorem gladstein_patsy (s : SysState) (a : Action)
    (hown : 1 ≤ s.ownHist.length) (hp : s.flag = true)
    (ha : s.oppHist.getLast? = some a) :
    (gladsteinCall s).2 =
      some (if a = Action.D then Action.C
            else if (s.ownCooperations : ℚ) / (s.ownHist.length : ℚ) >
                (0.5 : ℚ) then Action.D else Action.C) ∧
    (gladsteinCall s).1.flag = (if a = Action.D then false else true) := by
  have h0 : ¬ s.ownHist.length = 0 := by omega
  cases a with
  | D => constructor <;> simp [gladsteinCall, h0, hp, ha]
  | C =>
    by_cases hr : (s.ownCooperations : ℚ) / (s.ownHist.length : ℚ) >
        (0.5 : ℚ)
    · constructor <;> simp [gladsteinCall, h0, hp, ha, hr]
    · constructor <;> simp [gladsteinCall, h0, hp, ha, hr]

/-- Witness for claim C6 at a concrete state: the opponent just defected
while `patsy` was still set, so Gladstein apologises with C and clears the
flag. -/
theorem gladstein_patsy_witness :
    (gladsteinCall ⟨[Action.D], [Action.D], 1, 0, 0,
        ELength.fin 200, true, []⟩).2 = some Action.C ∧
    (gladsteinCall ⟨[Action.D], [Action.D], 1, 0, 0,
        ELength.fin 200, true, []⟩).1.flag = false := by
  have h := gladstein_patsy ⟨[Action.D], [Action.D], 1, 0, 0,
      ELength.fin 200, true, []⟩ Action.D (by decide) rfl rfl
  simpa using h

/-- Claim C8: under the engine precondition that the two histories have
equal length, every branch of Champion, Eatherley and Gladstein that
divides by a history length is reached only with that length at least 1,
so no call hits the division-by-zero (or indexing) error path: each call
returns a move. -/
theorem ratio_divisions_guarded (s : SysState)
    (hlen : s.oppHist.length = s.ownHist.length) :
    ((championCall s).2).isSome ∧ ((eatherleyCall s).2).isSome ∧
    ((gladsteinCall s).2).isSome := by
  refine ⟨?_, ?_, ?_⟩
  · by_cases h0 : s.ownHist.length = 0
    · simp [championCall, h0]
    · have hop : ¬ s.oppHist.length = 0 := by omega
      have hsome : s.oppHist.getLast?.isSome :=
        List.getLast?_isSome.mpr (by
          intro hnil
          rw [hnil] at hop
          simp at hop)
      obtain ⟨a, ha⟩ := Option.isSome_iff_exists.mp hsome
      cases a <;> (simp [championCall, h0, hop, ha]; try split_ifs <;> simp)
  · by_cases hop : s.oppHist.length = 0
    · simp [eatherleyCall, hop]
    · have hsome : s.oppHist.getLast?.isSome :=
        List.getLast?_isSome.mpr (by
          intro hnil
          rw [hnil] at hop
          simp at hop)
      obtain ⟨a, ha⟩ := Option.isSome_iff_exists.mp hsome
      cases a <;> simp [eatherleyCall, hop, ha]
  · by_cases h0 : s.ownHist.length = 0
    · simp [gladsteinCall, h0]
    · have hop : ¬ s.oppHist.length = 0 := by omega
      have hsome : s.oppHist.getLast?.isSome :=
        List.getLast?_isSome.mpr (by
          intro hnil
          rw [hnil] at hop
          simp at hop)
      obtain ⟨a, ha⟩ := Option.isSome_iff_exists.mp hsome
      by_cases hf : s.flag <;> cases a <;>
        (simp [gladsteinCall, h0, hf, ha]; try split_ifs <;> simp)

/-- Witness for claim C8 at a concrete state with equal histories. -/
theorem ratio_divisions_guarded_witness :
    ((championCall ⟨[Action.C], [Action.D], 1, 0, 1,
        ELength.fin 20, true, [0]⟩).2).isSome ∧
    ((eatherleyCall ⟨[Action.C], [Action.D], 1, 0, 1,
        ELength.fin 20, true, [0]⟩).2).isSome ∧
    ((gladsteinCall ⟨[Action.C], [Action.D], 1, 0, 1,
        ELength.fin 20, true, [0]⟩).2).isSome :=
  ratio_divisions_guarded _ rfl

/-- Claim C9: a decide call of any of the five strategies leaves the
opponent's history and both opponent counts unchanged, and in fact leaves
everything except the strategy's own private flag (and the consumed
random stream) unchanged: the own history, own cooperation count and
match length attribute of the returned state all equal those of the
input. -/
theorem decide_preserves_opponent (s : SysState) :
    nonFlagView ((championCall s).1) = nonFlagView s ∧
    nonFlagView ((eatherleyCall s).1) = nonFlagView s ∧
    nonFlagView ((testerCall s).1) = nonFlagView s ∧
    nonFlagView ((gladsteinCall s).1) = nonFlagView s ∧
    nonFlagView ((moreGrofmanCall s).1) = nonFlagView s := by
  refine ⟨?_, ?_, ?_, ?_, ?_⟩
  · unfold championCall
    repeat' (first | split | dsimp only)
    all_goals rfl
  · unfold eatherleyCall
    repeat' (first | split | dsimp only)
    all_goals rfl
  · unfold testerCall
    repeat' (first | split | dsimp only)
    all_goals rfl
  · unfold gladsteinCall
    repeat' (first | split | dsimp only)
    all_goals rfl
  · rfl

/-- Claim C10: Tester, Gladstein and MoreGrofman never consult the random
source: for every state, runs of the same call under two arbitrary random
streams return the identical move. -/
theorem deterministic_strategies (s : SysState) (r1 r2 : List ℚ) :
    (testerCall (setRng s r1)).2 = (testerCall (setRng s r2)).2 ∧
    (gladsteinCall (setRng s r1)).2 = (gladsteinCall (setRng s r2)).2 ∧
    (moreGrofmanCall (setRng s r1)).2 = (moreGrofmanCall (setRng s r2)).2 := by
  rcases s with ⟨own, opp, d, c, oc, e, f, ρ⟩
  refine ⟨?_, ?_, ?_⟩
  · simp only [setRng, testerCall]
    repeat' (first | split | dsimp only)
  · simp only [setRng, gladsteinCall]
    repeat' (first | split | dsimp only)
  · rfl

/-- Appending one more alternating block extends the pattern. -/
theorem patt_succ (k : ℕ) :
    patt (k + 1) = patt k ++ [Action.D, Action.C] := by
  unfold patt
  rw [List.replicate_succ']
  simp

/-- Length of the pattern after `3 + 2k` rounds. -/
theorem patt_length (k : ℕ) : (patt k).length = 3 + 2 * k := by
  induction k with
  | zero => rfl
  | succ m ih =>
    rw [patt_succ, List.length_append, ih]
    simp
    omega

/-- The pattern always ends in C. -/
theorem patt_getLast (k : ℕ) : (patt k).getLast? = some Action.C := by
  cases k with
  | zero => rfl
  | succ m =>
    rw [patt_succ,
      show [Action.D, Action.C] = [Action.D] ++ [Action.C] from rfl,
      ← List.append_assoc]
    exact List.getLast?_concat _

/-- A non-empty all-C history ends in C. -/
theorem replicate_C_getLast (n : ℕ) :
    (List.replicate (n + 1) Action.C).getLast? = some Action.C := by
  rw [List.replicate_succ']
  exact List.getLast?_concat _

/-- One unfolding of the Tester-versus-cooperator simulation. -/
theorem testerCoopSim_succ (n : ℕ) :
    testerCoopSim (n + 1) =
      ((testerCoopSim n).1 ++
        [((testerCall (mkTesterState (testerCoopSim n).1
            (List.replicate n Action.C) (testerCoopSim n).2)).2).getD Action.C],
       (testerCall (mkTesterState (testerCoopSim n).1
            (List.replicate n Action.C) (testerCoopSim n).2)).1.flag) := rfl

/-- Evaluation of a Tester call against an always-cooperating opponent once
past the third own move and with the flag still unset: the state is
unchanged and the move is the flip of the own previous move. -/
theorem testerCall_coop_step (own : List Action) (n : ℕ) (a : Action)
    (hn : own.length = n) (h3 : 3 ≤ n) (ha : own.getLast? = some a) :
    testerCall (mkTesterState own (List.replicate n Action.C) false) =
      (mkTesterState own (List.replicate n Action.C) false, some a.flip) := by
  obtain ⟨m, rfl⟩ : ∃ m, n = m + 1 := ⟨n - 1, by omega⟩
  have h1 : ¬ (own.length = 1 ∨ own.length = 2) := by omega
  simp [testerCall, mkTesterState, replicate_C_getLast, ha, h1]

/-- The simulated Tester history against an always-cooperating opponent:
after `3 + 2k` rounds it is the pattern `patt k`, after `4 + 2k` rounds the
pattern extended by one D, and the `is_TFT` flag stays unset. -/
theorem testerCoopSim_patt (k : ℕ) :
    testerCoopSim (3 + 2 * k) = (patt k, false) ∧
    testerCoopSim (4 + 2 * k) = (patt k ++ [Action.D], false) := by
  induction k with
  | zero => constructor <;> decide
  | succ m ih =>
    obtain ⟨ih1, ih2⟩ := ih
    have hlen2 : (patt m ++ [Action.D]).length = 4 + 2 * m := by
      rw [List.length_append, patt_length]
      simp
      omega
    have hstep1 : testerCoopSim (4 + 2 * m + 1) = (patt (m + 1), false) := by
      rw [testerCoopSim_succ, ih2]
      rw [testerCall_coop_step (patt m ++ [Action.D]) (4 + 2 * m) Action.D
        hlen2 (by omega) (List.getLast?_concat _)]
      simp [mkTesterState, patt_succ, Action.flip]
    have e1 : 3 + 2 * (m + 1) = 4 + 2 * m + 1 := by ring
    have e2 : 4 + 2 * (m + 1) = (4 + 2 * m + 1) + 1 := by ring
    refine ⟨by rw [e1, hstep1], ?_⟩
    rw [e2, testerCoopSim_succ, hstep1]
    rw [show (4 + 2 * m + 1 : ℕ) = 3 + 2 * (m + 1) from by ring]
    rw [testerCall_coop_step (patt (m + 1)) (3 + 2 * (m + 1)) Action.C
      (patt_length _) (by omega) (patt_getLast _)]
    simp [mkTesterState, Action.flip]

/-- Against an always-cooperating opponent, Tester defects in every round
`3 + 2k`. -/
theorem testerMoveVsCoop_odd (k : ℕ) :
    testerMoveVsCoop (3 + 2 * k) = some Action.D := by
  unfold testerMoveVsCoop
  rw [(testerCoopSim_patt k).1]
  rw [testerCall_coop_step (patt k) (3 + 2 * k) Action.C
    (patt_length _) (by omega) (patt_getLast _)]
  simp [Action.flip]

/-- Against an always-cooperating opponent, Tester cooperates in every
round `4 + 2k`. -/
theorem testerMoveVsCoop_even (k : ℕ) :
    testerMoveVsCoop (4 + 2 * k) = some Action.C := by
  unfold testerMoveVsCoop
  rw [(testerCoopSim_patt k).2]
  have hlen2 : (patt k ++ [Action.D]).length = 4 + 2 * k := by
    rw [List.length_append, patt_length]
    simp
    omega
  rw [testerCall_coop_step (patt k ++ [Action.D]) (4 + 2 * k) Action.D
    hlen2 (by omega) (List.getLast?_concat _)]
  simp [Action.flip]

/-- Claim C7: against an opponent who always cooperates, Tester plays
Defect in round 0, Cooperate in rounds 1 and 2, and from round 3 onward
the flip of its own previous move — the sequence D, C, C, D, C, D, C, ... -/
theorem tester_vs_cooperator :
    testerMoveVsCoop 0 = some Action.D ∧
    testerMoveVsCoop 1 = some Action.C ∧
    testerMoveVsCoop 2 = some Action.C ∧
    ∀ n : ℕ, 3 ≤ n →
      testerMoveVsCoop n = (testerMoveVsCoop (n - 1)).map Action.flip := by
  refine ⟨by decide, by decide, by decide, ?_⟩
  intro n hn
  rcases Nat.even_or_odd n with he | ho
  · obtain ⟨j, hj⟩ := he
    obtain ⟨k, rfl⟩ : ∃ k, n = 4 + 2 * k := ⟨j - 2, by omega⟩
    rw [show (4 + 2 * k - 1 : ℕ) = 3 + 2 * k from by omega,
      testerMoveVsCoop_even k, testerMoveVsCoop_odd k]
    rfl
  · obtain ⟨j, hj⟩ := ho
    obtain ⟨k, rfl⟩ : ∃ k, n = 3 + 2 * k := ⟨j - 1, by omega⟩
    rw [testerMoveVsCoop_odd k]
    cases k with
    | zero =>
      rw [show (3 + 2 * 0 - 1 : ℕ) = 2 from by norm_num]
      decide
    | succ m =>
      rw [show (3 + 2 * (m + 1) - 1 : ℕ) = 4 + 2 * m from by omega,
        testerMoveVsCoop_even m]
      rfl

/-- Witness for claim C7 at round 5: the move there is the flip of the
round-4 move. -/
theorem tester_vs_cooperator_witness :
    testerMoveVsCoop 5 = (testerMoveVsCoop 4).map Action.flip :=
  tester_vs_cooperator.2.2.2 5 (by decide)

end AxelrodSecond
